import Mathlib

/-!
# Verification of the image-annotation editor's store and layout engine

Shallow embedding of the annotation store (`useAnnotations` hook:
`addAnnotation`, `updateAnnotation`, `deleteAnnotation`, `clearAnnotations`,
`undo`, `redo`) and of the label-layout / connector-routing code of
`AnnotationCanvas.tsx` (`getAnnotationCenter`, `getBadgeCenter`,
`placeLabels`, elbow staggering, `handleMouseUp`, margin sizing).

JavaScript numbers are modelled as rationals (`ℚ`); all geometry in the
source is arithmetic on floats, which we idealise as exact arithmetic.
The one square root in the source (`Math.sqrt` in the ellipse branch of
`getBadgeCenter`) is threaded through as an explicit parameter `len`
constrained by hypotheses `len * len = dx ^ 2 + dy ^ 2`, `0 ≤ len`.
-/

/-- A 2-D point, as the `{x, y}` records of the source. -/
structure Pt where
  x : ℚ
  y : ℚ
deriving DecidableEq

/-- A width/height pair, as the `size` field of `Annotation`. -/
structure Sz where
  width : ℚ
  height : ℚ
deriving DecidableEq

/-- `AnnotationType` from `types/annotation.ts`:
`'rectangle' | 'circle' | 'solid-circle' | 'text' | 'pencil'`. -/
inductive AnnotationType where
  | rectangle
  | circle
  | solidCircle
  | text
  | pencil
deriving DecidableEq

/-- The `alignment` field's values `'left' | 'center' | 'right'`. -/
inductive TextAlign where
  | left
  | center
  | right
deriving DecidableEq

/-- The `Annotation` record of `types/annotation.ts`. -/
structure Annotation where
  id : String
  type : AnnotationType
  number : ℕ
  position : Pt
  size : Sz
  color : String
  text : String
  alignment : TextAlign
  labelPosition : Option Pt := none
  points : Option (List Pt) := none
deriving DecidableEq

/-- The argument of `addAnnotation`: `Omit<Annotation, 'id' | 'number'>`. -/
structure AnnotationInput where
  type : AnnotationType
  position : Pt
  size : Sz
  color : String
  text : String
  alignment : TextAlign
  labelPosition : Option Pt := none
  points : Option (List Pt) := none
deriving DecidableEq

/-- The argument of `updateAnnotation`: `Partial<Annotation>`, one optional
field per field of `Annotation`. -/
structure AnnotationUpdate where
  id : Option String := none
  type : Option AnnotationType := none
  number : Option ℕ := none
  position : Option Pt := none
  size : Option Sz := none
  color : Option String := none
  text : Option String := none
  alignment : Option TextAlign := none
  labelPosition : Option (Option Pt) := none
  points : Option (Option (List Pt)) := none
deriving DecidableEq

/-- The spread merge `{ ...annotation, ...updates }` of `updateAnnotation`:
every field present in the partial overrides the record's field. -/
def applyUpdate (a : Annotation) (u : AnnotationUpdate) : Annotation :=
  { id := u.id.getD a.id
    type := u.type.getD a.type
    number := u.number.getD a.number
    position := u.position.getD a.position
    size := u.size.getD a.size
    color := u.color.getD a.color
    text := u.text.getD a.text
    alignment := u.alignment.getD a.alignment
    labelPosition := u.labelPosition.getD a.labelPosition
    points := u.points.getD a.points }

/-- The state held by the `useAnnotations` hook: the annotation list, the
`nextNumber` counter, and the undo/redo snapshot stacks.  `history` is
pushed at the tail (`[...prev, annotations]`) and popped at the tail;
`redoStack` is pushed and popped at the head (`[annotations, ...r]`). -/
structure StoreState where
  annotations : List Annotation
  nextNumber : ℕ
  history : List (List Annotation )
  redoStack : List (List Annotation )
deriving DecidableEq

/-- `useAnnotations()`'s initial state: empty list, `nextNumber = 1`,
empty history and redo stacks. -/
def initialState : StoreState :=
  { annotations := [], nextNumber := 1, history := [], redoStack := [] }

/-- `addAnnotation`: push prior list to history, clear redo, append a new
record with the supplied fields, the fresh `id` generated from
`Date.now()`/`Math.random()` (passed here as a parameter), and
`number := nextNumber`; then increment `nextNumber`. -/
def addAnnotation (input : AnnotationInput ) (freshId : String) (s : StoreState) :
    StoreState :=
  { annotations := s.annotations ++
      [{ id := freshId
         type := input.type
         number := s.nextNumber
         position := input.position
         size := input.size
         color := input.color
         text := input.text
         alignment := input.alignment
         labelPosition := input.labelPosition
         points := input.points }]
    nextNumber := s.nextNumber + 1
    history := s.history ++ [s.annotations]
    redoStack := [] }

/-- `updateAnnotation(id, updates)`: push prior list to history, clear redo,
merge `updates` into the record whose `id` matches. -/
def updateAnnotation (id : String) (u : AnnotationUpdate ) (s : StoreState) :
    StoreState :=
  { annotations := s.annotations.map fun a =>
      if a.id = id then applyUpdate a u else a
    nextNumber := s.nextNumber
    history := s.history ++ [s.annotations]
    redoStack := [] }

/-- `deleteAnnotation(id)`: push prior list to history, clear redo, remove
the record whose `id` matches. -/
def deleteAnnotation (id : String) (s : StoreState) : StoreState :=
  { annotations := s.annotations.filter fun a => a.id ≠ id
    nextNumber := s.nextNumber
    history := s.history ++ [s.annotations]
    redoStack := [] }

/-- `clearAnnotations()`: push prior list to history, clear redo, empty the
list and reset `nextNumber` to 1. -/
def clearAnnotations (s : StoreState) : StoreState :=
  { annotations := []
    nextNumber := 1
    history := s.history ++ [s.annotations]
    redoStack := [] }

/-- `undo()`: no-op on an empty history; otherwise pop the last snapshot,
push the current list onto the front of the redo stack, and restore. -/
def undo (s : StoreState) : StoreState :=
  match s.history.getLast? with
  | none => s
  | some last =>
    { annotations := last
      nextNumber := s.nextNumber
      history := s.history.dropLast
      redoStack := s.annotations :: s.redoStack }

/-- `redo()`: no-op on an empty redo stack; otherwise pop its head, push the
current list onto the history, and restore. -/
def redo (s : StoreState) : StoreState :=
  match s.redoStack with
  | [] => s
  | next :: rest =>
    { annotations := next
      nextNumber := s.nextNumber
      history := s.history ++ [s.annotations]
      redoStack := rest }

/-- One mutating store operation (the four list-mutating calls of the
hook). -/
inductive StoreOp where
  | add (input : AnnotationInput ) (freshId : String)
  | update (id : String) (u : AnnotationUpdate )
  | del (id : String)
  | clear
deriving DecidableEq

/-- Apply one mutating operation. -/
def applyOp (op : StoreOp) (s : StoreState) : StoreState :=
  match op with
  | .add input freshId => addAnnotation input freshId s
  | .update id u => updateAnnotation id u s
  | .del id => deleteAnnotation id s
  | .clear => clearAnnotations s

/-- Apply a sequence of mutating operations, first element first. -/
def applyOps (l : List StoreOp) (s : StoreState) : StoreState :=
  match l with
  | [] => s
  | op :: rest => applyOps rest (applyOp op s)

/-- `n` successive `undo()` calls. -/
def undoN (n : ℕ) (s : StoreState) : StoreState :=
  match n with
  | 0 => s
  | n + 1 => undoN n (undo s)

/-- `n` successive `redo()` calls. -/
def redoN (n : ℕ) (s : StoreState) : StoreState :=
  match n with
  | 0 => s
  | n + 1 => redoN n (redo s)

/-- The pre-mutation snapshots pushed onto `history` by a sequence of
mutating operations: the value of `annotations` just before each one. -/
def snapshots (l : List StoreOp) (s : StoreState) : List (List Annotation ) :=
  match l with
  | [] => []
  | op :: rest => s.annotations :: snapshots rest (applyOp op s)

theorem applyOp_history (op : StoreOp) (s : StoreState) :
    (applyOp op s).history = s.history ++ [s.annotations] := by
  cases op <;> rfl

theorem applyOp_redoStack (op : StoreOp) (s : StoreState) :
    (applyOp op s).redoStack = [] := by
  cases op <;> rfl

theorem snapshots_length (l : List StoreOp) (s : StoreState) :
    (snapshots l s).length = l.length := by
  induction l generalizing s with
  | nil => rfl
  | cons op rest ih => simp [snapshots, ih]

theorem applyOps_history (l : List StoreOp) (s : StoreState) :
    (applyOps l s).history = s.history ++ snapshots l s := by
  induction l generalizing s with
  | nil => simp [applyOps, snapshots]
  | cons op rest ih =>
    simp [applyOps, snapshots, ih, applyOp_history, List.append_assoc]

theorem applyOps_cons_redoStack (op : StoreOp) (rest : List StoreOp)
    (s : StoreState) : (applyOps (op :: rest) s).redoStack = [] := by
  induction rest generalizing op s with
  | nil => simpa [applyOps] using applyOp_redoStack op s
  | cons op2 rest2 ih =>
    show (applyOps (op2 :: rest2) (applyOp op s)).redoStack = []
    exact ih op2 (applyOp op s)

theorem undoN_spec (snaps : List (List Annotation )) :
    ∀ (a : List Annotation ) (nn : ℕ) (h R : List (List Annotation )),
      snaps ≠ [] →
      undoN snaps.length ⟨a, nn, h ++ snaps, R⟩ =
        ⟨snaps.headD [], nn, h, snaps.tail ++ a :: R⟩ := by
  induction snaps using List.reverseRecOn with
  | nil => intro a nn h R hne; exact absurd rfl hne
  | append_singleton L x ih =>
    intro a nn h R _
    have hlen : (L ++ [x]).length = L.length + 1 := by simp
    rw [hlen]
    have hget : (h ++ (L ++ [x])).getLast? = some x := by
      rw [← List.append_assoc]; exact List.getLast?_concat _
    have hdrop : (h ++ (L ++ [x])).dropLast = h ++ L := by
      rw [← List.append_assoc]; exact List.dropLast_concat
    have hundo : undo ⟨a, nn, h ++ (L ++ [x]), R⟩ =
        ⟨x, nn, h ++ L, a :: R⟩ := by
      simp only [undo, hget, hdrop]
    show undoN L.length (undo ⟨a, nn, h ++ (L ++ [x]), R⟩) = _
    rw [hundo]
    cases L with
    | nil => simp [undoN]
    | cons b L' =>
      rw [ih x nn h (a :: R) (by simp)]
      simp

theorem redoN_spec (M : List (List Annotation )) :
    ∀ (a : List Annotation ) (nn : ℕ) (h R : List (List Annotation )),
      redoN M.length ⟨a, nn, h, M ++ R⟩ =
        ⟨M.getLastD a, nn, h ++ (a :: M).dropLast, R⟩ := by
  induction M with
  | nil => intro a nn h R; simp [redoN]
  | cons x M' ih =>
    intro a nn h R
    have hredo : redo ⟨a, nn, h, (x :: M') ++ R⟩ =
        ⟨x, nn, h ++ [a], M' ++ R⟩ := by
      simp only [redo, List.cons_append]
    show redoN M'.length (redo ⟨a, nn, h, (x :: M') ++ R⟩) = _
    rw [hredo, ih x nn (h ++ [a]) R]
    cases M' with
    | nil => simp
    | cons y M'' => simp only [List.getLastD_cons]; simp

/-- **C1.** For any sequence of mutating store operations (`addAnnotation`,
`updateAnnotation`, `deleteAnnotation`, `clearAnnotations`) applied to the
annotation store, followed by an equal number of `undo()` calls, the
annotation list is structurally identical to its state before the sequence
began; a subsequent equal number of `redo()` calls restores the
post-sequence annotation list. -/
theorem undo_redo_roundtrip (s : StoreState) (l : List StoreOp) :
    (undoN l.length (applyOps l s)).annotations = s.annotations ∧
    (redoN l.length (undoN l.length (applyOps l s))).annotations =
      (applyOps l s).annotations := by
  cases l with
  | nil => exact ⟨rfl, rfl⟩
  | cons op rest =>
    obtain ⟨ta, tn, th, tr, heq⟩ : ∃ ta tn th tr,
        applyOps (op :: rest) s = ⟨ta, tn, th, tr⟩ := ⟨_, _, _, _, rfl⟩
    have hth : th = s.history ++
        (s.annotations :: snapshots rest (applyOp op s)) := by
      have h1 := applyOps_history (op :: rest) s
      rw [heq] at h1
      exact h1
    have htr : tr = [] := by
      have h1 := applyOps_cons_redoStack op rest s
      rw [heq] at h1
      exact h1
    have hlen : (op :: rest).length =
        (s.annotations :: snapshots rest (applyOp op s)).length := by
      simp [snapshots_length]
    have hu : undoN (op :: rest).length (applyOps (op :: rest) s) =
        ⟨s.annotations, tn, s.history,
          (snapshots rest (applyOp op s) ++ [ta]) ++ []⟩ := by
      rw [heq, hth, htr, hlen,
        undoN_spec _ ta tn s.history [] (List.cons_ne_nil _ _)]
      simp
    have hlen2 : (op :: rest).length =
        (snapshots rest (applyOp op s) ++ [ta]).length := by
      simp [snapshots_length]
    constructor
    · rw [hu]
    · rw [hu, heq, hlen2,
        redoN_spec _ s.annotations tn s.history []]
      simp [List.getLastD_concat]

/-- The operations C2's sequences allow, in amended form: `clearAnnotations`
is excluded, and updates do not touch the `number` field. -/
def goodOp : StoreOp → Bool
  | .clear => false
  | .update _ u => u.number.isNone
  | _ => true

/-- The `number` values assigned by the `addAnnotation` calls of a
sequence: the value of `nextNumber` at each `add`. -/
def assignedNumbers : List StoreOp → StoreState → List ℕ
  | [], _ => []
  | op :: rest, s =>
    (match op with
      | .add _ _ => [s.nextNumber]
      | _ => []) ++ assignedNumbers rest (applyOp op s)

theorem applyOp_nextNumber_le (op : StoreOp) (s : StoreState)
    (h : goodOp op = true) :
    s.nextNumber ≤ (applyOp op s).nextNumber := by
  cases op <;>
    simp [goodOp] at h ⊢ <;>
    simp [applyOp, addAnnotation, updateAnnotation, deleteAnnotation]

theorem assignedNumbers_lb (l : List StoreOp) (s : StoreState)
    (h : ∀ op ∈ l, goodOp op = true) :
    ∀ x ∈ assignedNumbers l s, s.nextNumber ≤ x := by
  induction l generalizing s with
  | nil => intro x hx; simp [assignedNumbers] at hx
  | cons op rest ih =>
    intro x hx
    have hop : goodOp op = true := h op (by simp)
    have hrest : ∀ op2 ∈ rest, goodOp op2 = true := fun op2 h2 =>
      h op2 (by simp [h2])
    simp only [assignedNumbers, List.mem_append] at hx
    rcases hx with hx | hx
    · cases op <;> simp_all
    · exact le_trans (applyOp_nextNumber_le op s hop)
        (ih (applyOp op s) hrest x hx)

theorem assignedNumbers_sorted (l : List StoreOp) (s : StoreState)
    (h : ∀ op ∈ l, goodOp op = true) :
    List.Pairwise (· < ·) (assignedNumbers l s) := by
  induction l generalizing s with
  | nil => simp [assignedNumbers]
  | cons op rest ih =>
    have hop : goodOp op = true := h op (by simp)
    have hrest : ∀ op2 ∈ rest, goodOp op2 = true := fun op2 h2 =>
      h op2 (by simp [h2])
    have htail := ih (applyOp op s) hrest
    cases op with
    | add input freshId =>
      simp only [assignedNumbers, List.singleton_append]
      refine List.Pairwise.cons ?_ htail
      intro x hx
      have hle := assignedNumbers_lb rest (applyOp (.add input freshId) s)
        hrest x hx
      have : (applyOp (.add input freshId) s).nextNumber =
          s.nextNumber + 1 := rfl
      omega
    | update id u => simpa [assignedNumbers] using htail
    | del id => simpa [assignedNumbers] using htail
    | clear => simpa [assignedNumbers] using htail

/-- The per-state invariant behind C2: the `number` fields are strictly
increasing in list order (creation order), and all sit below
`nextNumber`. -/
def NumbersInv (s : StoreState) : Prop :=
  List.Pairwise (· < ·) (s.annotations.map fun a => a.number) ∧
  ∀ a ∈ s.annotations, a.number < s.nextNumber

theorem applyUpdate_number (a : Annotation) (u : AnnotationUpdate )
    (h : u.number.isNone = true) : (applyUpdate a u).number = a.number := by
  cases hu : u.number with
  | none => simp [applyUpdate, hu]
  | some n => rw [hu] at h; simp at h

theorem numbersInv_preserved (op : StoreOp) (s : StoreState)
    (hop : goodOp op = true) (h : NumbersInv s) : NumbersInv (applyOp op s) := by
  obtain ⟨h1, h2⟩ := h
  cases op with
  | add input freshId =>
    have hann : (applyOp (StoreOp.add input freshId) s).annotations.map
        (fun a => a.number) =
        (s.annotations.map fun a => a.number) ++ [s.nextNumber] := by
      simp [applyOp, addAnnotation]
    have hnn : (applyOp (StoreOp.add input freshId) s).nextNumber =
        s.nextNumber + 1 := rfl
    constructor
    · rw [hann, List.pairwise_append]
      refine ⟨h1, by simp, ?_⟩
      intro x hx y hy
      simp only [List.mem_singleton] at hy
      subst hy
      obtain ⟨a, ha, rfl⟩ := List.mem_map.1 hx
      exact h2 a ha
    · intro a ha
      rw [hnn]
      have hmem : a.number ∈ (applyOp (StoreOp.add input freshId)
          s).annotations.map (fun a => a.number) :=
        List.mem_map_of_mem _ ha
      rw [hann] at hmem
      rcases List.mem_append.1 hmem with hm | hm
      · obtain ⟨b, hb, hnum⟩ := List.mem_map.1 hm
        have := h2 b hb
        omega
      · simp only [List.mem_singleton] at hm
        omega
  | update id u =>
    have hu : u.number.isNone = true := by simpa [goodOp] using hop
    have hann : (applyOp (StoreOp.update id u) s).annotations.map
        (fun a => a.number) = s.annotations.map fun a => a.number := by
      show ((s.annotations.map fun a =>
          if a.id = id then applyUpdate a u else a).map fun a => a.number) = _
      rw [List.map_map]
      refine List.map_congr_left fun a _ => ?_
      by_cases hid : a.id = id <;> simp [hid, applyUpdate_number a u hu]
    have hnn : (applyOp (StoreOp.update id u) s).nextNumber =
        s.nextNumber := rfl
    constructor
    · rw [hann]; exact h1
    · intro a ha
      rw [hnn]
      have hmem : a.number ∈ (applyOp (StoreOp.update id u)
          s).annotations.map (fun a => a.number) :=
        List.mem_map_of_mem _ ha
      rw [hann] at hmem
      obtain ⟨b, hb, hnum⟩ := List.mem_map.1 hmem
      have := h2 b hb
      omega
  | del id =>
    have hsub : List.Sublist
        (s.annotations.filter fun a => a.id ≠ id) s.annotations :=
      List.filter_sublist _
    have hann : (applyOp (StoreOp.del id) s).annotations =
        s.annotations.filter fun a => a.id ≠ id := rfl
    have hnn : (applyOp (StoreOp.del id) s).nextNumber = s.nextNumber := rfl
    constructor
    · rw [hann]
      exact List.Pairwise.sublist (hsub.map fun a => a.number) h1
    · intro a ha
      rw [hann] at ha
      rw [hnn]
      exact h2 a (hsub.subset ha)
  | clear => simp [goodOp] at hop

theorem numbersInv_applyOps (l : List StoreOp) (s : StoreState)
    (h : ∀ op ∈ l, goodOp op = true) (hs : NumbersInv s) :
    NumbersInv (applyOps l s) := by
  induction l generalizing s with
  | nil => exact hs
  | cons op rest ih =>
    exact ih (applyOp op s) (fun op2 h2 => h op2 (by simp [h2]))
      (numbersInv_preserved op s (h op (by simp)) hs)

theorem numbersInv_initial : NumbersInv initialState :=
  ⟨by simp [initialState], by simp [initialState]⟩

/-- A sample rectangle input for concrete store runs. -/
def rectInput : AnnotationInput :=
  { type := .rectangle, position := ⟨0, 0⟩, size := ⟨10, 10⟩,
    color := "red", text := "", alignment := .left }

/-- **C2 (amended).** For every sequence of `addAnnotation` calls
interleaved with `deleteAnnotation`/`updateAnnotation` calls (with no
`clearAnnotations`), *provided no update writes the `number` field*, the
`number` values assigned by successive `addAnnotation` calls are strictly
increasing and a number is never reused even after the annotation bearing
it is deleted; within a project, `number` is unique and reflects creation
order (the numbers are strictly increasing along the list, which is kept
in creation order). -/
theorem number_monotonicity (l : List StoreOp)
    (h : ∀ op ∈ l, goodOp op = true) :
    List.Pairwise (· < ·) (assignedNumbers l initialState) ∧
    List.Pairwise (· < ·)
      ((applyOps l initialState).annotations.map fun a => a.number) :=
  ⟨assignedNumbers_sorted l initialState h,
    (numbersInv_applyOps l initialState h numbersInv_initial).1⟩

/-- A concrete good sequence: add, delete, update (text only), add. -/
def c2WitnessOps : List StoreOp :=
  [.add rectInput "a1", .del "a1",
   .update "a2" { text := some "hi" }, .add rectInput "a2"]

/-- Witness for C2: the amended theorem applied to `c2WitnessOps`. -/
theorem number_monotonicity_witness :
    (∀ op ∈ c2WitnessOps, goodOp op = true) ∧
    (List.Pairwise (· < ·) (assignedNumbers c2WitnessOps initialState) ∧
     List.Pairwise (· < ·)
       ((applyOps c2WitnessOps initialState).annotations.map
         fun a => a.number)) :=
  ⟨by decide, number_monotonicity c2WitnessOps (by decide)⟩

/-- A sequence with no `clearAnnotations` call in which an
`updateAnnotation` writes the `number` field. -/
def c2CexOps : List StoreOp :=
  [.add rectInput "a1", .add rectInput "a2",
   .update "a2" { number := some 1 }]

/-- **C2 counterexample.** `c2CexOps` contains no `clear`, yet afterwards
two stored annotations carry the same `number` (both 1): `number` is not
unique within the project, because `updateAnnotation` accepts a
`Partial<Annotation>` that may overwrite `number`. -/
theorem c2_counterexample :
    (∀ op ∈ c2CexOps, op ≠ StoreOp.clear) ∧
    ((applyOps c2CexOps initialState).annotations.map fun a => a.number) =
      [1, 1] := by decide

/-- JS `Math.round`: round half toward positive infinity, `⌊x + 1/2⌋`. -/
def jsRound (q : ℚ) : ℤ := ⌊q + 1 / 2⌋

/-- `labelFontSize = Math.max(minLabelFontSize, Math.min(maxLabelFontSize,
Math.round(imageHeight / 35)))` with the constants 18 and 28. -/
def labelFontSize (imageHeight : ℚ) : ℚ :=
  max 18 (min 28 ((jsRound (imageHeight / 35) : ℤ) : ℚ))

/-- `getAnnotationCenter`: bounding-box centre (in SVG coordinates, image
position plus margin offsets) for rectangles and circles; the first stored
point for pencil paths with at least one point; the raw position offset by
the margins otherwise. -/
def getAnnotationCenter (imageX imageY : ℚ) (ann : Annotation ) : Pt :=
  match ann.type, ann.points with
  | .rectangle, _ =>
    ⟨ann.position.x + ann.size.width / 2 + imageX,
     ann.position.y + ann.size.height / 2 + imageY⟩
  | .circle, _ =>
    ⟨ann.position.x + ann.size.width / 2 + imageX,
     ann.position.y + ann.size.height / 2 + imageY⟩
  | .pencil, some (p :: _) => p
  | _, _ => ⟨ann.position.x + imageX, ann.position.y + imageY⟩

/-- Character-level splitter behind `wordsOf`: walk the text, accumulating
the current word (in reverse) and emitting it when a whitespace run or the
end of the text is reached. -/
def splitWsAux : List Char → List Char → List String
  | [], acc => if acc = [] then [] else [String.mk acc.reverse]
  | c :: cs, acc =>
    if c.isWhitespace then
      if acc = [] then splitWsAux cs []
      else String.mk acc.reverse :: splitWsAux cs []
    else splitWsAux cs (c :: acc)

/-- JS `text.split(/\s+/)`: split on maximal whitespace runs.  Modelled as
the maximal non-whitespace runs of the text, which agrees with the JS call
on texts without leading or trailing whitespace (the JS call additionally
yields empty boundary fragments there). -/
def wordsOf (text : String) : List String :=
  splitWsAux text.data []

/-- The word-wrapping loop of `getLabelInfo`: group the words into lines of
at most `maxWordsPerLine = 6` words. -/
def chunksOf6Fuel : ℕ → List String → List (List String)
  | 0, _ => []
  | _, [] => []
  | fuel + 1, w :: ws => (w :: ws.take 5) :: chunksOf6Fuel fuel (ws.drop 5)

/-- The chunking loop, with the word count as (always sufficient) fuel so
that the recursion is structural. -/
def chunksOf6 (l : List String) : List (List String) :=
  chunksOf6Fuel l.length l

/-- The per-label record built by `getLabelInfo` inside
`renderLabelsAndConnectors`: the annotation, its wrapped lines, and the
label box height `lines.length * lineHeight + labelPadding`. -/
@[ext]
structure LabelEntry where
  ann : Annotation
  lines : List String
  height : ℚ
deriving DecidableEq

/-- `getLabelInfo(ann)` with `lineHeight = labelFontSize * 1.2` and
`labelPadding = 12`; empty text falls back to the placeholder
`'Add note...'`. -/
def getLabelInfo (labelFontSize : ℚ) (ann : Annotation ) : LabelEntry :=
  let lineHeight := labelFontSize * 1.2
  let labelPadding : ℚ := 12
  let text := if ann.text = "" then "Add note..." else ann.text
  let lines := (chunksOf6 (wordsOf text)).map fun ws =>
    " ".intercalate ws
  { ann := ann, lines := lines,
    height := lines.length * lineHeight + labelPadding }

/-- `getLabelInfo` applied to each annotation of a side, in the order the
side's array holds them. -/
def entriesOf (labelFontSize : ℚ) (anns : List Annotation ) :
    List LabelEntry :=
  anns.map fun a => getLabelInfo labelFontSize a

/-- Step 1 of `placeLabels`: place each label at its natural y (its
annotation's centre clamped into the image's vertical extent), pushed
down below the previous label by at least its height plus `minGap`.
`prev` carries the previous label's `(position, height)`. -/
def placeLabelsStep1 (availableTop availableBottom minGap imageX imageY : ℚ) :
    List LabelEntry → Option (ℚ × ℚ) → List ℚ
  | [], _ => []
  | e :: rest, prev =>
    let centerY := (getAnnotationCenter imageX imageY e.ann).y
    let naturalY := max availableTop (min centerY (availableBottom - e.height))
    let y := match prev with
      | none => naturalY
      | some (py, ph) => max naturalY (py + ph + minGap)
    y :: placeLabelsStep1 availableTop availableBottom minGap imageX imageY
      rest (some (y, e.height))

/-- The overflow computed by step 2 of `placeLabels`: the last label's
bottom edge minus the bottom bound (0 when the side is empty). -/
def stackOverflow (imageX imageY imageHeight : ℚ)
    (arr : List LabelEntry ) : ℚ :=
  let availableTop := imageY
  let availableBottom := imageY + imageHeight
  let positions := placeLabelsStep1 availableTop availableBottom 4 imageX
    imageY arr none
  match arr.getLast?, positions.getLast? with
  | some lastE, some lastP => lastP + lastE.height - availableBottom
  | _, _ => 0

/-- `placeLabels` of `renderLabelsAndConnectors`: step 1 stacking with
`minGap = 4` over `availableTop = imageY`,
`availableBottom = imageY + imageHeight`, then step 2: if the last label
overflows the bottom bound, shift every position up by the overflow,
clamping each at `availableTop`. -/
def placeLabels (imageX imageY imageHeight : ℚ)
    (arr : List LabelEntry ) : List ℚ :=
  let availableTop := imageY
  let availableBottom := imageY + imageHeight
  let positions := placeLabelsStep1 availableTop availableBottom 4 imageX
    imageY arr none
  match arr.getLast?, positions.getLast? with
  | some lastE, some lastP =>
    let lastBottom := lastP + lastE.height
    let overflow := lastBottom - availableBottom
    if 0 < overflow then positions.map fun p => max availableTop (p - overflow)
    else positions
  | _, _ => positions

/-- The stacking invariant of C3: successive `(y, height)` pairs satisfy
`y[i] ≥ y[i-1] + height[i-1] + minGap`. -/
def stackGapsOK (minGap : ℚ) (l : List (ℚ × ℚ)) : Prop :=
  List.Chain' (fun a b => a.1 + a.2 + minGap ≤ b.1) l

theorem getLabelInfo_ann (fs : ℚ) (a : Annotation ) :
    (getLabelInfo fs a).ann = a := rfl

theorem getLabelInfo_height_eq (fs : ℚ) (a : Annotation ) :
    (getLabelInfo fs a).height =
      (getLabelInfo fs a).lines.length * (fs * 1.2) + 12 := rfl

theorem placeLabelsStep1_length (top bottom minGap imageX imageY : ℚ)
    (arr : List LabelEntry ) :
    ∀ (prev : Option (ℚ × ℚ)),
      (placeLabelsStep1 top bottom minGap imageX imageY arr prev).length =
        arr.length := by
  induction arr with
  | nil => intro prev; rfl
  | cons e rest ih => intro prev; simp [placeLabelsStep1, ih]

theorem placeLabelsStep1_chain (top bottom minGap imageX imageY : ℚ)
    (arr : List LabelEntry ) :
    ∀ (prev : Option (ℚ × ℚ)),
      stackGapsOK minGap
        ((placeLabelsStep1 top bottom minGap imageX imageY arr prev).zip
          (arr.map fun e => e.height)) := by
  induction arr with
  | nil => intro prev; simp [placeLabelsStep1, stackGapsOK]
  | cons e rest ih =>
    intro prev
    cases rest with
    | nil => simp [placeLabelsStep1, stackGapsOK]
    | cons e2 rest2 =>
      have htail := ih (some
        ((match prev with
          | none => max top (min (getAnnotationCenter imageX imageY e.ann).y
              (bottom - e.height))
          | some (py, ph) => max (max top
              (min (getAnnotationCenter imageX imageY e.ann).y
                (bottom - e.height))) (py + ph + minGap)),
          e.height))
      simp only [placeLabelsStep1, stackGapsOK, List.map_cons,
        List.zip_cons_cons] at htail ⊢
      rw [List.chain'_cons]
      refine ⟨?_, htail⟩
      exact le_max_right _ _

theorem placeLabels_eq (imageX imageY imageHeight : ℚ)
    (arr : List LabelEntry ) :
    placeLabels imageX imageY imageHeight arr =
      (if 0 < stackOverflow imageX imageY imageHeight arr then
        (placeLabelsStep1 imageY (imageY + imageHeight) 4 imageX imageY arr
          none).map
          fun p => max imageY (p - stackOverflow imageX imageY imageHeight arr)
      else
        placeLabelsStep1 imageY (imageY + imageHeight) 4 imageX imageY arr
          none) := by
  unfold placeLabels stackOverflow
  cases harr : arr.getLast? with
  | none =>
    cases hpos : (placeLabelsStep1 imageY (imageY + imageHeight) 4 imageX
        imageY arr none).getLast? <;> simp [hpos]
  | some lastE =>
    cases hpos : (placeLabelsStep1 imageY (imageY + imageHeight) 4 imageX
        imageY arr none).getLast? with
    | none => simp [hpos]
    | some lastP => simp [hpos, sub_pos]

theorem stackGapsOK_shift (minGap ov : ℚ) (ps hs : List ℚ)
    (h : stackGapsOK minGap (ps.zip hs)) :
    stackGapsOK minGap ((ps.map fun p => p - ov).zip hs) := by
  unfold stackGapsOK at h ⊢
  rw [List.zip_map_left, List.chain'_map]
  refine h.imp fun a b hab => ?_
  simp only [Prod.map, id] at *
  cases a; cases b
  simp only [] at hab ⊢
  linarith

theorem getLast?_zip (l1 : List ℚ) :
    ∀ (l2 : List ℚ), l1.length = l2.length →
      ∀ (a b : ℚ), l1.getLast? = some a → l2.getLast? = some b →
        (l1.zip l2).getLast? = some (a, b) := by
  induction l1 with
  | nil => intro l2 _ a b h1; simp at h1
  | cons x l1' ih =>
    intro l2 hlen a b h1 h2
    cases l2 with
    | nil => simp at hlen
    | cons y l2' =>
      cases l1' with
      | nil =>
        cases l2' with
        | nil =>
          simp only [List.getLast?_singleton, Option.some.injEq] at h1 h2
          simp [h1, h2]
        | cons _ _ => simp at hlen
      | cons x2 l1'' =>
        cases l2' with
        | nil => simp at hlen
        | cons y2 l2'' =>
          have hlen' : (x2 :: l1'').length = (y2 :: l2'').length := by
            simpa using hlen
          have h1' : (x2 :: l1'').getLast? = some a := by simpa using h1
          have h2' : (y2 :: l2'').getLast? = some b := by simpa using h2
          have hzip := ih (y2 :: l2'') hlen' a b h1' h2'
          simpa [List.zip_cons_cons] using hzip

theorem stack_bottoms_le (minGap bound : ℚ) (hg : 0 ≤ minGap) :
    ∀ (l : List (ℚ × ℚ)),
      stackGapsOK minGap l →
      (∀ x ∈ l, 0 ≤ x.2) →
      (∀ last ∈ l.getLast?, last.1 + last.2 ≤ bound) →
      ∀ x ∈ l, x.1 + x.2 ≤ bound := by
  intro l
  induction l with
  | nil => intro _ _ _ x hx; simp at hx
  | cons p l' ih =>
    intro hchain hpos hlast x hx
    cases l' with
    | nil =>
      simp only [List.mem_singleton] at hx
      subst hx
      exact hlast x (by simp)
    | cons q l'' =>
      rcases List.mem_cons.1 hx with rfl | hx'
      · have h1 : x.1 + x.2 + minGap ≤ q.1 := (List.chain'_cons.1 hchain).1
        have h2 : q.1 + q.2 ≤ bound :=
          ih (List.chain'_cons.1 hchain).2
            (fun z hz => hpos z (List.mem_cons_of_mem _ hz))
            (by simpa using hlast) q (by simp)
        have h3 : 0 ≤ q.2 := hpos q (by simp)
        linarith
      · exact ih (List.chain'_cons.1 hchain).2
          (fun z hz => hpos z (List.mem_cons_of_mem _ hz))
          (by simpa using hlast) x hx'

/-- **C3 (amended).** For any set of annotations assigned to the same side,
the stacked label y-positions computed by the stacking pass satisfy
`y[i] ≥ y[i-1] + height[i-1] + minGap` for every `i > 0`; the
overflow-correction pass preserves this invariant whenever the upward
shift leaves every stacked position at or above the image's top bound
(the pass clamps each shifted position at `availableTop`, which can
compress gaps when labels are dense). -/
theorem label_stack_gaps (imageX imageY imageHeight : ℚ)
    (arr : List LabelEntry ) :
    stackGapsOK 4
      ((placeLabelsStep1 imageY (imageY + imageHeight) 4 imageX imageY arr
        none).zip (arr.map fun e => e.height)) ∧
    ((∀ p ∈ placeLabelsStep1 imageY (imageY + imageHeight) 4 imageX imageY
          arr none,
        imageY + stackOverflow imageX imageY imageHeight arr ≤ p) →
      stackGapsOK 4
        ((placeLabels imageX imageY imageHeight arr).zip
          (arr.map fun e => e.height))) := by
  refine ⟨placeLabelsStep1_chain _ _ 4 imageX imageY arr none, fun H => ?_⟩
  rw [placeLabels_eq]
  by_cases hov : 0 < stackOverflow imageX imageY imageHeight arr
  · rw [if_pos hov]
    have hmap : (placeLabelsStep1 imageY (imageY + imageHeight) 4 imageX
        imageY arr none).map
          (fun p => max imageY
            (p - stackOverflow imageX imageY imageHeight arr)) =
        (placeLabelsStep1 imageY (imageY + imageHeight) 4 imageX imageY arr
          none).map
          (fun p => p - stackOverflow imageX imageY imageHeight arr) :=
      List.map_congr_left fun p hp =>
        max_eq_right (by have := H p hp; linarith)
    rw [hmap]
    exact stackGapsOK_shift 4 _ _ _
      (placeLabelsStep1_chain _ _ 4 imageX imageY arr none)
  · rw [if_neg hov]
    exact placeLabelsStep1_chain _ _ 4 imageX imageY arr none

/-- A rectangle annotation at `(0, py)` of size 10×10 with label text
`txt`, used for concrete layout runs. -/
def sampleAnn (py : ℚ) (txt : String) : Annotation :=
  { id := "s", type := .rectangle, number := 1, position := ⟨0, py⟩,
    size := ⟨10, 10⟩, color := "c", text := txt, alignment := .left }

/-- **C3 counterexample.** Two one-line labels on a 50-pixel-high image:
after the overflow-correction pass the positions are `[0, 82/5]`, whose
gap `82/5 - (0 + 168/5 + 4)` is negative — the stacking invariant does
*not* survive the overflow pass, because the pass clamps each shifted
position at the top bound instead of shifting uniformly. -/
theorem c3_counterexample :
    ¬ stackGapsOK 4
      ((placeLabels 0 0 50
          (entriesOf (labelFontSize 50) [sampleAnn 0 "a", sampleAnn 0 "a"])).zip
        ((entriesOf (labelFontSize 50)
          [sampleAnn 0 "a", sampleAnn 0 "a"]).map fun e => e.height)) := by
  have hE : getLabelInfo (labelFontSize 50) (sampleAnn 0 "a") =
      { ann := sampleAnn 0 "a", lines := ["a"], height := 168/5 } := by
    refine LabelEntry.ext rfl rfl ?_
    rw [getLabelInfo_height_eq,
      show (getLabelInfo (labelFontSize 50) (sampleAnn 0 "a")).lines = ["a"]
        from rfl]
    norm_num [labelFontSize, jsRound]
  simp only [entriesOf, List.map_cons, List.map_nil, hE]
  norm_num [placeLabels, placeLabelsStep1, getAnnotationCenter, sampleAnn,
    stackGapsOK, max_def, min_def, List.chain'_cons, List.chain'_singleton]

/-- Witness for C3: a single label on a 600-pixel-high image; no overflow,
every stacked position clears the (negative) shift bound, and the final
positions keep the gap invariant. -/
theorem label_stack_gaps_witness :
    (∀ p ∈ placeLabelsStep1 0 (0 + 600) 4 0 0
        (entriesOf (labelFontSize 600) [sampleAnn 45 "a"]) none,
      0 + stackOverflow 0 0 600
        (entriesOf (labelFontSize 600) [sampleAnn 45 "a"]) ≤ p) ∧
    stackGapsOK 4
      ((placeLabels 0 0 600
          (entriesOf (labelFontSize 600) [sampleAnn 45 "a"])).zip
        ((entriesOf (labelFontSize 600)
          [sampleAnn 45 "a"]).map fun e => e.height)) := by
  have hE : getLabelInfo (labelFontSize 600) (sampleAnn 45 "a") =
      { ann := sampleAnn 45 "a", lines := ["a"], height := 168/5 } := by
    refine LabelEntry.ext rfl rfl ?_
    rw [getLabelInfo_height_eq,
      show (getLabelInfo (labelFontSize 600) (sampleAnn 45 "a")).lines = ["a"]
        from rfl]
    norm_num [labelFontSize, jsRound]
  have hH : ∀ p ∈ placeLabelsStep1 0 (0 + 600) 4 0 0
      (entriesOf (labelFontSize 600) [sampleAnn 45 "a"]) none,
      0 + stackOverflow 0 0 600
        (entriesOf (labelFontSize 600) [sampleAnn 45 "a"]) ≤ p := by
    simp only [entriesOf, List.map_cons, List.map_nil, hE]
    norm_num [placeLabelsStep1, stackOverflow, getAnnotationCenter, sampleAnn,
      max_def, min_def]
  exact ⟨hH, (label_stack_gaps 0 0 600
    (entriesOf (labelFontSize 600) [sampleAnn 45 "a"])).2 hH⟩

/-- **C4 (amended).** When the final label on a side overflows the bottom
bound after stacking, every position is shifted up by the overflow amount
clamped below at the top bound; *provided no position clamps* (every
stacked position sits at least the overflow above the top bound), the
shift is uniformly the overflow amount — preserving relative order and
spacing — and every label then lies within the vertical bounds of the
image. -/
theorem overflow_shift_uniform (imageX imageY imageHeight : ℚ)
    (arr : List LabelEntry )
    (hov : 0 < stackOverflow imageX imageY imageHeight arr)
    (H : ∀ p ∈ placeLabelsStep1 imageY (imageY + imageHeight) 4 imageX imageY
        arr none,
      imageY + stackOverflow imageX imageY imageHeight arr ≤ p)
    (hh : ∀ e ∈ arr, 0 ≤ e.height) :
    placeLabels imageX imageY imageHeight arr =
      (placeLabelsStep1 imageY (imageY + imageHeight) 4 imageX imageY arr
        none).map
        (fun p => p - stackOverflow imageX imageY imageHeight arr) ∧
    ∀ x ∈ (placeLabels imageX imageY imageHeight arr).zip
        (arr.map fun e => e.height),
      imageY ≤ x.1 ∧ x.1 + x.2 ≤ imageY + imageHeight := by
  have heq : placeLabels imageX imageY imageHeight arr =
      (placeLabelsStep1 imageY (imageY + imageHeight) 4 imageX imageY arr
        none).map
        (fun p => p - stackOverflow imageX imageY imageHeight arr) := by
    rw [placeLabels_eq, if_pos hov]
    exact List.map_congr_left fun p hp =>
      max_eq_right (by have := H p hp; linarith)
  refine ⟨heq, ?_⟩
  obtain ⟨lastE, harr⟩ : ∃ lastE, arr.getLast? = some lastE := by
    cases harr : arr.getLast? with
    | none =>
      rw [List.getLast?_eq_none_iff] at harr
      subst harr
      simp [stackOverflow, placeLabelsStep1] at hov
    | some e => exact ⟨e, rfl⟩
  obtain ⟨lastP, hps⟩ : ∃ lastP,
      (placeLabelsStep1 imageY (imageY + imageHeight) 4 imageX imageY arr
        none).getLast? = some lastP := by
    cases hps : (placeLabelsStep1 imageY (imageY + imageHeight) 4 imageX
        imageY arr none).getLast? with
    | none =>
      rw [List.getLast?_eq_none_iff] at hps
      have hlen := placeLabelsStep1_length imageY (imageY + imageHeight) 4
        imageX imageY arr none
      rw [hps] at hlen
      cases arr with
      | nil => simp at harr
      | cons e rest => simp at hlen
    | some p => exact ⟨p, rfl⟩
  have hov_eq : stackOverflow imageX imageY imageHeight arr =
      lastP + lastE.height - (imageY + imageHeight) := by
    simp [stackOverflow, harr, hps]
  have hh_last : (arr.map fun e => e.height).getLast? =
      some lastE.height := by
    rw [List.getLast?_map, harr]
    rfl
  have hmap_last : ((placeLabelsStep1 imageY (imageY + imageHeight) 4 imageX
      imageY arr none).map
        (fun p => p - stackOverflow imageX imageY imageHeight arr)).getLast? =
      some (lastP - stackOverflow imageX imageY imageHeight arr) := by
    rw [List.getLast?_map, hps]
    rfl
  have hlen2 : ((placeLabelsStep1 imageY (imageY + imageHeight) 4 imageX
      imageY arr none).map
        (fun p => p - stackOverflow imageX imageY imageHeight arr)).length =
      (arr.map fun e => e.height).length := by
    simp [placeLabelsStep1_length]
  have hzip_last := getLast?_zip _ _ hlen2 _ _ hmap_last hh_last
  have hchain : stackGapsOK 4
      (((placeLabelsStep1 imageY (imageY + imageHeight) 4 imageX imageY arr
        none).map
          (fun p => p - stackOverflow imageX imageY imageHeight arr)).zip
        (arr.map fun e => e.height)) :=
    stackGapsOK_shift 4 _ _ _
      (placeLabelsStep1_chain _ _ 4 imageX imageY arr none)
  intro x hx
  rw [heq] at hx
  have hx1 := (List.of_mem_zip hx).1
  obtain ⟨p, hp, hpe⟩ := List.mem_map.1 hx1
  constructor
  · have := H p hp
    rw [← hpe]
    linarith
  · refine stack_bottoms_le 4 (imageY + imageHeight) (by norm_num) _ hchain
      ?_ ?_ x hx
    · intro z hz
      have hz2 := (List.of_mem_zip hz).2
      obtain ⟨e, he, hee⟩ := List.mem_map.1 hz2
      rw [← hee]
      exact hh e he
    · intro last hlast
      rw [hzip_last] at hlast
      have hlast2 : last =
          (lastP - stackOverflow imageX imageY imageHeight arr,
            lastE.height) := by
        have := hlast
        simp only [Option.mem_def, Option.some.injEq] at this
        exact this.symm
      rw [hlast2]
      simp only []
      linarith [hov_eq.ge, hov_eq.le]

/-- A 13-word label: three wrapped lines, taller than a 50-pixel image. -/
def denseEntries : List LabelEntry :=
  entriesOf (labelFontSize 50) [sampleAnn 0 "w w w w w w w w w w w w w"]

/-- **C4 counterexample.** One three-line label on a 50-pixel-high image:
the overflow pass fires (overflow `134/5 > 0`) but the resulting position
`[0]` is *not* the uniform shift `[-134/5]` (the clamp at the top bound
broke uniformity), and the label's bottom edge `384/5` still exceeds the
bottom bound 50 — a label renders outside the vertical bounds. -/
theorem c4_counterexample :
    0 < stackOverflow 0 0 50 denseEntries ∧
    placeLabels 0 0 50 denseEntries = [0] ∧
    placeLabels 0 0 50 denseEntries ≠
      (placeLabelsStep1 0 (0 + 50) 4 0 0 denseEntries none).map
        (fun p => p - stackOverflow 0 0 50 denseEntries) ∧
    ∃ x ∈ (placeLabels 0 0 50 denseEntries).zip
        (denseEntries.map fun e => e.height),
      0 + 50 < x.1 + x.2 := by
  have hE : getLabelInfo (labelFontSize 50)
      (sampleAnn 0 "w w w w w w w w w w w w w") =
      { ann := sampleAnn 0 "w w w w w w w w w w w w w",
        lines := ["w w w w w w", "w w w w w w", "w"], height := 384/5 } := by
    refine LabelEntry.ext rfl rfl ?_
    rw [getLabelInfo_height_eq,
      show (getLabelInfo (labelFontSize 50)
        (sampleAnn 0 "w w w w w w w w w w w w w")).lines =
        ["w w w w w w", "w w w w w w", "w"] from rfl]
    norm_num [labelFontSize, jsRound]
  have hD : denseEntries =
      [{ ann := sampleAnn 0 "w w w w w w w w w w w w w",
         lines := ["w w w w w w", "w w w w w w", "w"], height := 384/5 }] := by
    simp only [denseEntries, entriesOf, List.map_cons, List.map_nil, hE]
  refine ⟨?_, ?_, ?_, ?_⟩
  · rw [hD]
    norm_num [stackOverflow, placeLabelsStep1, getAnnotationCenter,
      sampleAnn, max_def, min_def]
  · rw [hD]
    norm_num [placeLabels, placeLabelsStep1, getAnnotationCenter,
      sampleAnn, max_def, min_def]
  · rw [hD]
    norm_num [placeLabels, placeLabelsStep1, stackOverflow,
      getAnnotationCenter, sampleAnn, max_def, min_def]
  · rw [hD]
    refine ⟨(0, 384/5), ?_, by norm_num⟩
    have hP : placeLabels 0 0 50
        [{ ann := sampleAnn 0 "w w w w w w w w w w w w w",
           lines := ["w w w w w w", "w w w w w w", "w"],
           height := 384/5 }] = [0] := by
      norm_num [placeLabels, placeLabelsStep1, getAnnotationCenter,
        sampleAnn, max_def, min_def]
    rw [hP]
    simp

/-- Two labels anchored near the bottom of a 100-pixel-high image: the
overflow pass fires and no position clamps. -/
def wEntries : List LabelEntry :=
  entriesOf (labelFontSize 100) [sampleAnn 80 "a", sampleAnn 80 "a"]

/-- Witness for C4: on `wEntries` the overflow is `188/5 > 0`, no stacked
position clamps, all heights are nonnegative, and the amended theorem
yields the uniform shift and in-bounds conclusion. -/
theorem overflow_shift_uniform_witness :
    (0 < stackOverflow 0 0 100 wEntries) ∧
    (∀ p ∈ placeLabelsStep1 0 (0 + 100) 4 0 0 wEntries none,
      0 + stackOverflow 0 0 100 wEntries ≤ p) ∧
    (∀ e ∈ wEntries, 0 ≤ e.height) ∧
    (placeLabels 0 0 100 wEntries =
      (placeLabelsStep1 0 (0 + 100) 4 0 0 wEntries none).map
        (fun p => p - stackOverflow 0 0 100 wEntries) ∧
    ∀ x ∈ (placeLabels 0 0 100 wEntries).zip
        (wEntries.map fun e => e.height),
      0 ≤ x.1 ∧ x.1 + x.2 ≤ 0 + 100) := by
  have hE : getLabelInfo (labelFontSize 100) (sampleAnn 80 "a") =
      { ann := sampleAnn 80 "a", lines := ["a"], height := 168/5 } := by
    refine LabelEntry.ext rfl rfl ?_
    rw [getLabelInfo_height_eq,
      show (getLabelInfo (labelFontSize 100) (sampleAnn 80 "a")).lines =
        ["a"] from rfl]
    norm_num [labelFontSize, jsRound]
  have hW : wEntries =
      [{ ann := sampleAnn 80 "a", lines := ["a"], height := 168/5 },
       { ann := sampleAnn 80 "a", lines := ["a"], height := 168/5 }] := by
    simp only [wEntries, entriesOf, List.map_cons, List.map_nil, hE]
  have h1 : 0 < stackOverflow 0 0 100 wEntries := by
    rw [hW]
    norm_num [stackOverflow, placeLabelsStep1, getAnnotationCenter,
      sampleAnn, max_def, min_def]
  have h2 : ∀ p ∈ placeLabelsStep1 0 (0 + 100) 4 0 0 wEntries none,
      0 + stackOverflow 0 0 100 wEntries ≤ p := by
    rw [hW]
    norm_num [stackOverflow, placeLabelsStep1, getAnnotationCenter,
      sampleAnn, max_def, min_def]
  have h3 : ∀ e ∈ wEntries, 0 ≤ e.height := by
    rw [hW]
    norm_num
  exact ⟨h1, h2, h3, overflow_shift_uniform 0 0 100 wEntries h1 h2 h3⟩

/-- The left/right split of `renderLabelsAndConnectors`: an annotation goes
to the `left` bucket iff its centre's x-coordinate is left of
`imageWidth / 2 + imageX` (the image's horizontal midline in SVG
coordinates). -/
def sideIsLeft (imageX imageY imageWidth : ℚ) (ann : Annotation ) : Bool :=
  (getAnnotationCenter imageX imageY ann).x < imageWidth / 2 + imageX

/-- The rectangle branch of `getBadgeCenter`: intersect the ray from the
rectangle's centre toward `(towardX, towardY)` with the rectangle's edge,
choosing the edge pair by comparing `|dx / w|` with `|dy / h|` (the same
comparison as `|dx / halfWidth|` against `|dy / halfHeight|`).  When the
direction is zero or a dimension is zero the JS arithmetic yields
NaN/Infinity; Lean's total division yields 0 there instead, and the
theorems below exclude those degenerate inputs by hypothesis. -/
def nearestRectBoundaryPoint (x y w h towardX towardY : ℚ) : Pt :=
  let cx := x + w / 2
  let cy := y + h / 2
  let dx := towardX - cx
  let dy := towardY - cy
  if |dx / w| > |dy / h| then
    let tx := if dx > 0 then w / 2 else -(w / 2)
    ⟨cx + tx, cy + (dy / dx) * tx⟩
  else
    let ty := if dy > 0 then h / 2 else -(h / 2)
    ⟨cx + (dx / dy) * ty, cy + ty⟩

/-- The circle branch of `getBadgeCenter`: centre plus the direction vector
normalised by `len = Math.sqrt(dx² + dy²) || 1` and scaled by the radii.
`len` is the square root computed by the source, passed as a parameter;
the `if len = 0 then 1 else len` mirrors the `|| 1` guard. -/
def nearestEllipsePoint (cx cy rx ry towardX towardY len : ℚ) : Pt :=
  let dx := towardX - cx
  let dy := towardY - cy
  let len1 := if len = 0 then 1 else len
  ⟨cx + dx / len1 * rx, cy + dy / len1 * ry⟩

/-- `getBadgeCenter(ann, labelBadgeX, labelBadgeY)`: the connector's start
point — the shape-boundary point toward the label for rectangles and
circles, the centre for solid circles, the first stored point for pencil
paths, the annotation position otherwise. -/
def getBadgeCenter (imageX imageY : ℚ) (ann : Annotation )
    (labelBadgeX labelBadgeY len : ℚ) : Pt :=
  match ann.type, ann.points with
  | .rectangle, _ =>
    nearestRectBoundaryPoint (ann.position.x + imageX)
      (ann.position.y + imageY) ann.size.width ann.size.height
      labelBadgeX labelBadgeY
  | .circle, _ =>
    nearestEllipsePoint (ann.position.x + ann.size.width / 2 + imageX)
      (ann.position.y + ann.size.height / 2 + imageY)
      (ann.size.width / 2) (ann.size.height / 2) labelBadgeX labelBadgeY len
  | .solidCircle, _ =>
    ⟨ann.position.x + ann.size.width / 2 + imageX,
     ann.position.y + ann.size.height / 2 + imageY⟩
  | .pencil, some (p :: _) => p
  | _, _ => ⟨ann.position.x + imageX, ann.position.y + imageY⟩

/-- The elbow-staggering computation: `elbowSpread = 80`, `elbowCenter`
the midpoint of the badge start x and the label badge x, and with more
than one connector on the side the elbow moves from `elbowCenter - 40`
in steps of `elbowSpread / (connectorsOnThisSide - 1)`. -/
def midwayX (badgeStartX labelBadgeX : ℚ)
    (connectorIndex connectorsOnThisSide : ℕ) : ℚ :=
  let elbowSpread : ℚ := 80
  let elbowCenter := (badgeStartX + labelBadgeX) / 2
  let elbowMin := elbowCenter - elbowSpread / 2
  if connectorsOnThisSide > 1 then
    elbowMin + (connectorIndex : ℚ) *
      (elbowSpread / ((connectorsOnThisSide : ℚ) - 1))
  else elbowCenter

/-- One SVG path command, as emitted into the connector's `d` string. -/
inductive PathCmd where
  | move (p : Pt)
  | line (p : Pt)
  | curve (c1 c2 p : Pt)
deriving DecidableEq

/-- The connector path construction: below `bendThreshold = 40` of
vertical distance a two-segment polyline, otherwise a line, a cubic bend
(radius `min 32 (verticalDistance / 2)`), and a final line. -/
def connectorPath (badgeStart : Pt) (midway connectorEndX connectorEndY : ℚ) :
    List PathCmd :=
  let verticalDistance := |badgeStart.y - connectorEndY|
  let bendThreshold : ℚ := 40
  let curveRadius := min 32 (verticalDistance / 2)
  if verticalDistance < bendThreshold then
    [.move badgeStart, .line ⟨midway, badgeStart.y⟩,
     .line ⟨connectorEndX, connectorEndY⟩]
  else
    [.move badgeStart, .line ⟨midway, badgeStart.y⟩,
     .curve ⟨midway, badgeStart.y + curveRadius⟩
       ⟨midway, connectorEndY - curveRadius⟩ ⟨midway, connectorEndY⟩,
     .line ⟨connectorEndX, connectorEndY⟩]

/-- The point at which a command list starts (the first `M`). -/
def pathStart? (l : List PathCmd) : Option Pt :=
  match l with
  | .move p :: _ => some p
  | _ => none

/-- The point at which a command list ends (the final segment's target). -/
def pathEnd? (l : List PathCmd) : Option Pt :=
  match l.getLast? with
  | some (.move p) => some p
  | some (.line p) => some p
  | some (.curve _ _ p) => some p
  | none => none

/-- `labelEdgeBuffer = 40`: the fixed buffer from both canvas edges. -/
def labelEdgeBuffer : ℚ := 40

/-- The values computed for one label inside the
`labelRenderList.map` body of `renderLabelsAndConnectors`. -/
structure LabelRender where
  labelBoxWidth : ℚ
  labelBoxX : ℚ
  labelTextRenderX : ℚ
  labelTextWidth : ℚ
  connectorEndX : ℚ
  connectorEndY : ℚ
  labelBadgeX : ℚ
  labelBadgeY : ℚ
  badgeStart : Pt
  midway : ℚ
  path : List PathCmd

/-- The per-label geometry of `renderLabelsAndConnectors`: label box,
text anchor, connector end point (at the near edge of the label text),
badge position, connector start (`getBadgeCenter`), staggered elbow, and
the connector path. -/
def renderLabel (imageX imageY imageWidth svgWidth badgeRadius
    labelFontSize len : ℚ) (ann : Annotation ) (lines : List String)
    (y : ℚ) (isLeft : Bool) (connectorIndex connectorsOnThisSide : ℕ) :
    LabelRender :=
  let minBoxWidth : ℚ := if isLeft then 180 else 100
  let maxLineLen : ℕ := lines.foldl (fun m line => max m line.length) 0
  let labelBoxWidth := max minBoxWidth
    ((maxLineLen : ℚ) * labelFontSize * 0.6 + 24)
  let labelBoxY := y
  let labelBoxX := if isLeft then labelEdgeBuffer
    else svgWidth - labelBoxWidth - labelEdgeBuffer
  let safeGap : ℚ := if isLeft then 16 else 8
  let longestLine := lines.foldl
    (fun acc line => if line.length > acc.length then line else acc) ""
  let labelTextWidth := max (labelFontSize * 0.6 * (longestLine.length : ℚ)) 40
  let labelTextRenderX := if isLeft then labelEdgeBuffer + safeGap
    else labelBoxX + labelBoxWidth - safeGap
  let connectorEndX := if isLeft then labelTextRenderX + labelTextWidth
    else labelTextRenderX - labelTextWidth
  let connectorEndY := labelBoxY +
    ((lines.length : ℚ) * labelFontSize * 1.2) / 2 + 4
  let labelBadgeX := if isLeft then imageX - badgeRadius
    else imageWidth + imageX + badgeRadius
  let labelBadgeY := connectorEndY
  let badgeStart := getBadgeCenter imageX imageY ann labelBadgeX labelBadgeY
    len
  let midway := midwayX badgeStart.x labelBadgeX connectorIndex
    connectorsOnThisSide
  { labelBoxWidth := labelBoxWidth
    labelBoxX := labelBoxX
    labelTextRenderX := labelTextRenderX
    labelTextWidth := labelTextWidth
    connectorEndX := connectorEndX
    connectorEndY := connectorEndY
    labelBadgeX := labelBadgeX
    labelBadgeY := labelBadgeY
    badgeStart := badgeStart
    midway := midway
    path := connectorPath badgeStart midway connectorEndX connectorEndY }

/-- Membership on the boundary of the axis-aligned rectangle with corner
`(x, y)` and dimensions `w × h`. -/
def onRectBoundary (x y w h : ℚ) (p : Pt) : Prop :=
  ((p.x = x ∨ p.x = x + w) ∧ y ≤ p.y ∧ p.y ≤ y + h) ∨
  ((p.y = y ∨ p.y = y + h) ∧ x ≤ p.x ∧ p.x ≤ x + w)

/-- Membership on the ellipse with centre `(cx, cy)` and radii `rx, ry`. -/
def onEllipse (cx cy rx ry : ℚ) (p : Pt) : Prop :=
  ((p.x - cx) / rx) ^ 2 + ((p.y - cy) / ry) ^ 2 = 1

/-- The rectangle branch of `getBadgeCenter` really lands on the
rectangle's boundary, on the ray from the centre toward the label. -/
theorem nearestRectBoundaryPoint_spec (x y w h towardX towardY : ℚ)
    (hw : 0 < w) (hh : 0 < h)
    (hd : ¬(towardX = x + w / 2 ∧ towardY = y + h / 2)) :
    onRectBoundary x y w h (nearestRectBoundaryPoint x y w h towardX towardY) ∧
    ∃ t : ℚ, 0 ≤ t ∧
      (nearestRectBoundaryPoint x y w h towardX towardY).x =
        (x + w / 2) + t * (towardX - (x + w / 2)) ∧
      (nearestRectBoundaryPoint x y w h towardX towardY).y =
        (y + h / 2) + t * (towardY - (y + h / 2)) := by
  have hw2 : (0:ℚ) < w / 2 := by linarith
  have hh2 : (0:ℚ) < h / 2 := by linarith
  set dx := towardX - (x + w / 2) with hdx
  set dy := towardY - (y + h / 2) with hdy
  clear_value dx dy
  unfold nearestRectBoundaryPoint onRectBoundary
  simp only [← hdx, ← hdy]
  split_ifs with h1 h2 h2
  · -- |dx/w| > |dy/h|, dx > 0
    have habs : |dy| * w < |dx| * h := by
      rw [gt_iff_lt, abs_div, abs_div, abs_of_pos hw, abs_of_pos hh,
        div_lt_div_iff hh hw] at h1
      exact h1
    rw [abs_of_pos h2] at habs
    have hty : |dy / dx * (w / 2)| ≤ h / 2 := by
      rw [abs_mul, abs_div, abs_of_pos h2, abs_of_pos hw2,
        div_mul_eq_mul_div, div_le_iff h2]
      nlinarith [habs]
    obtain ⟨hty1, hty2⟩ := abs_le.1 hty
    constructor
    · exact Or.inl ⟨Or.inr (by ring), by simp only []; linarith,
        by simp only []; linarith⟩
    · refine ⟨(w / 2) / dx, le_of_lt (div_pos hw2 h2), ?_, ?_⟩
      · simp only []
        rw [div_mul_cancel₀ _ (ne_of_gt h2)]
      · simp only []
        ring_nf
  · -- |dx/w| > |dy/h|, ¬(dx > 0)
    have hdx0 : dx ≠ 0 := by
      intro h0
      rw [h0] at h1
      simp only [zero_div, abs_zero, gt_iff_lt] at h1
      linarith [abs_nonneg (dy / h)]
    have hdxneg : dx < 0 := lt_of_le_of_ne (not_lt.1 h2) hdx0
    have habs : |dy| * w < |dx| * h := by
      rw [gt_iff_lt, abs_div, abs_div, abs_of_pos hw, abs_of_pos hh,
        div_lt_div_iff hh hw] at h1
      exact h1
    rw [abs_of_neg hdxneg] at habs
    have hty : |dy / dx * (-(w / 2))| ≤ h / 2 := by
      rw [abs_mul, abs_neg, abs_div, abs_of_neg hdxneg, abs_of_pos hw2,
        div_mul_eq_mul_div, div_le_iff (by linarith : (0:ℚ) < -dx)]
      nlinarith [habs]
    obtain ⟨hty1, hty2⟩ := abs_le.1 hty
    constructor
    · exact Or.inl ⟨Or.inl (by ring), by simp only []; linarith,
        by simp only []; linarith⟩
    · refine ⟨(-(w / 2)) / dx, ?_, ?_, ?_⟩
      · exact le_of_lt (div_pos_of_neg_of_neg (by linarith) hdxneg)
      · simp only []
        rw [div_mul_cancel₀ _ hdx0]
      · simp only []
        ring_nf
  · -- ¬(|dx/w| > |dy/h|), dy > 0
    have habs : |dx| * h ≤ |dy| * w := by
      rw [not_lt, abs_div, abs_div, abs_of_pos hw, abs_of_pos hh,
        div_le_div_iff hw hh] at h1
      exact h1
    rw [abs_of_pos h2] at habs
    have htx : |dx / dy * (h / 2)| ≤ w / 2 := by
      rw [abs_mul, abs_div, abs_of_pos h2, abs_of_pos hh2,
        div_mul_eq_mul_div, div_le_iff h2]
      nlinarith [habs]
    obtain ⟨htx1, htx2⟩ := abs_le.1 htx
    constructor
    · exact Or.inr ⟨Or.inr (by ring), by simp only []; linarith,
        by simp only []; linarith⟩
    · refine ⟨(h / 2) / dy, le_of_lt (div_pos hh2 h2), ?_, ?_⟩
      · simp only []
        ring_nf
      · simp only []
        rw [div_mul_cancel₀ _ (ne_of_gt h2)]
  · -- ¬(|dx/w| > |dy/h|), ¬(dy > 0)
    have hdy0 : dy ≠ 0 := by
      intro h0
      have hdx0 : dx = 0 := by
        rw [not_lt, h0] at h1
        simp only [zero_div, abs_zero] at h1
        have h2 := abs_nonneg (dx / w)
        have hdxw : |dx / w| = 0 := le_antisymm h1 h2
        rw [abs_eq_zero, div_eq_zero_iff] at hdxw
        rcases hdxw with h3 | h3
        · exact h3
        · exact absurd h3 (ne_of_gt hw)
      exact hd ⟨by linarith [hdx, hdx0], by linarith [hdy, h0]⟩
    have hdyneg : dy < 0 := lt_of_le_of_ne (not_lt.1 h2) hdy0
    have habs : |dx| * h ≤ |dy| * w := by
      rw [not_lt, abs_div, abs_div, abs_of_pos hw, abs_of_pos hh,
        div_le_div_iff hw hh] at h1
      exact h1
    rw [abs_of_neg hdyneg] at habs
    have htx : |dx / dy * (-(h / 2))| ≤ w / 2 := by
      rw [abs_mul, abs_neg, abs_div, abs_of_neg hdyneg, abs_of_pos hh2,
        div_mul_eq_mul_div, div_le_iff (by linarith : (0:ℚ) < -dy)]
      nlinarith [habs]
    obtain ⟨htx1, htx2⟩ := abs_le.1 htx
    constructor
    · exact Or.inr ⟨Or.inl (by ring), by simp only []; linarith,
        by simp only []; linarith⟩
    · refine ⟨(-(h / 2)) / dy, ?_, ?_, ?_⟩
      · exact le_of_lt (div_pos_of_neg_of_neg (by linarith) hdyneg)
      · simp only []
        ring_nf
      · simp only []
        rw [div_mul_cancel₀ _ hdy0]

/-- The circle branch of `getBadgeCenter` lands on the ellipse whenever
`len` is the (nonzero) Euclidean norm of the direction vector. -/
theorem nearestEllipsePoint_spec (cx cy rx ry towardX towardY len : ℚ)
    (hrx : rx ≠ 0) (hry : ry ≠ 0) (hlen0 : len ≠ 0)
    (hlen : len * len = (towardX - cx) ^ 2 + (towardY - cy) ^ 2) :
    onEllipse cx cy rx ry
      (nearestEllipsePoint cx cy rx ry towardX towardY len) ∧
    (nearestEllipsePoint cx cy rx ry towardX towardY len).x =
      cx + (towardX - cx) / len * rx ∧
    (nearestEllipsePoint cx cy rx ry towardX towardY len).y =
      cy + (towardY - cy) / len * ry := by
  unfold nearestEllipsePoint onEllipse
  rw [if_neg hlen0]
  refine ⟨?_, rfl, rfl⟩
  simp only []
  have h1 : (cx + (towardX - cx) / len * rx - cx) / rx =
      (towardX - cx) / len := by field_simp; ring
  have h2 : (cy + (towardY - cy) / len * ry - cy) / ry =
      (towardY - cy) / len := by field_simp; ring
  rw [h1, h2, div_pow, div_pow, div_add_div_same, ← hlen, ← pow_two]
  exact div_self (pow_ne_zero 2 hlen0)

theorem pathStart?_connectorPath (bs : Pt) (m ex ey : ℚ) :
    pathStart? (connectorPath bs m ex ey) = some bs := by
  by_cases hvd : |bs.y - ey| < (40 : ℚ) <;>
    simp [connectorPath, pathStart?, hvd]

theorem pathEnd?_connectorPath (bs : Pt) (m ex ey : ℚ) :
    pathEnd? (connectorPath bs m ex ey) = some ⟨ex, ey⟩ := by
  by_cases hvd : |bs.y - ey| < (40 : ℚ) <;>
    simp [connectorPath, pathEnd?, hvd]

/-- **C5.** For every annotation, the computed connector path starts
exactly at the `getBadgeCenter` boundary point of the shape toward the
label anchor and ends exactly at the label's connector anchor point
`(connectorEndX, connectorEndY)`; for a rectangle (with positive
dimensions and the label anchor away from the centre) that start point
lies on the rectangle's boundary, chosen by comparing `|dx/w|` with
`|dy/h|`; for an ellipse (with nonzero radii and `len` the nonzero norm
of the direction) it is the centre plus the radius-scaled normalised
direction vector, a point on the ellipse. -/
theorem connector_path_endpoints (imageX imageY imageWidth svgWidth
    badgeRadius fs len : ℚ) (ann : Annotation ) (lines : List String)
    (y : ℚ) (isLeft : Bool) (ci n : ℕ) :
    pathStart? (renderLabel imageX imageY imageWidth svgWidth badgeRadius
        fs len ann lines y isLeft ci n).path =
      some (getBadgeCenter imageX imageY ann
        (renderLabel imageX imageY imageWidth svgWidth badgeRadius fs len
          ann lines y isLeft ci n).labelBadgeX
        (renderLabel imageX imageY imageWidth svgWidth badgeRadius fs len
          ann lines y isLeft ci n).labelBadgeY len) ∧
    pathEnd? (renderLabel imageX imageY imageWidth svgWidth badgeRadius
        fs len ann lines y isLeft ci n).path =
      some ⟨(renderLabel imageX imageY imageWidth svgWidth badgeRadius fs
          len ann lines y isLeft ci n).connectorEndX,
        (renderLabel imageX imageY imageWidth svgWidth badgeRadius fs len
          ann lines y isLeft ci n).connectorEndY⟩ ∧
    (∀ bx bY, ann.type = AnnotationType.rectangle →
      0 < ann.size.width → 0 < ann.size.height →
      ¬(bx = ann.position.x + imageX + ann.size.width / 2 ∧
        bY = ann.position.y + imageY + ann.size.height / 2) →
      onRectBoundary (ann.position.x + imageX) (ann.position.y + imageY)
        ann.size.width ann.size.height
        (getBadgeCenter imageX imageY ann bx bY len)) ∧
    (∀ bx bY, ann.type = AnnotationType.circle →
      ann.size.width / 2 ≠ 0 → ann.size.height / 2 ≠ 0 → len ≠ 0 →
      len * len =
        (bx - (ann.position.x + ann.size.width / 2 + imageX)) ^ 2 +
        (bY - (ann.position.y + ann.size.height / 2 + imageY)) ^ 2 →
      onEllipse (ann.position.x + ann.size.width / 2 + imageX)
        (ann.position.y + ann.size.height / 2 + imageY)
        (ann.size.width / 2) (ann.size.height / 2)
        (getBadgeCenter imageX imageY ann bx bY len)) := by
  refine ⟨pathStart?_connectorPath _ _ _ _, pathEnd?_connectorPath _ _ _ _,
    ?_, ?_⟩
  · intro bx bY ht hwpos hhpos hd
    rcases ann with ⟨aid, atype, anum, apos, asz, acol, atext, aal, alp, apts⟩
    simp only [] at ht hwpos hhpos hd ⊢
    subst ht
    have hx : getBadgeCenter imageX imageY
        ⟨aid, AnnotationType.rectangle, anum, apos, asz, acol, atext, aal,
          alp, apts⟩ bx bY len =
        nearestRectBoundaryPoint (apos.x + imageX) (apos.y + imageY)
          asz.width asz.height bx bY := by
      unfold getBadgeCenter
      rfl
    rw [hx]
    have hd' : ¬(bx = apos.x + imageX + asz.width / 2 ∧
        bY = apos.y + imageY + asz.height / 2) := hd
    exact (nearestRectBoundaryPoint_spec (apos.x + imageX) (apos.y + imageY)
      asz.width asz.height bx bY hwpos hhpos
      (by intro hc; exact hd' ⟨by linarith [hc.1], by linarith [hc.2]⟩)).1
  · intro bx bY ht hrx hry hlen0 hlen
    rcases ann with ⟨aid, atype, anum, apos, asz, acol, atext, aal, alp, apts⟩
    simp only [] at ht hrx hry hlen ⊢
    subst ht
    have hx : getBadgeCenter imageX imageY
        ⟨aid, AnnotationType.circle, anum, apos, asz, acol, atext, aal,
          alp, apts⟩ bx bY len =
        nearestEllipsePoint (apos.x + asz.width / 2 + imageX)
          (apos.y + asz.height / 2 + imageY)
          (asz.width / 2) (asz.height / 2) bx bY len := by
      unfold getBadgeCenter
      rfl
    rw [hx]
    exact (nearestEllipsePoint_spec (apos.x + asz.width / 2 + imageX)
      (apos.y + asz.height / 2 + imageY) (asz.width / 2) (asz.height / 2)
      bx bY len hrx hry hlen0 hlen).1

/-- A concrete rectangle for the C5 witness. -/
def rectAnnC5 : Annotation :=
  { id := "r5", type := .rectangle, number := 1, position := ⟨0, 0⟩,
    size := ⟨10, 10⟩, color := "c", text := "", alignment := .left }

/-- A concrete circle (radii 3 and 4) for the C5 witness. -/
def circAnnC5 : Annotation :=
  { id := "c5", type := .circle, number := 2, position := ⟨0, 0⟩,
    size := ⟨6, 8⟩, color := "c", text := "", alignment := .left }

/-- Witness for C5: the path endpoints of a concrete render, a
rectangle-boundary instance (label anchor at `(-20, 5)`), and an
ellipse instance with a 3-4-5 direction so that `len = 5` is exact. -/
theorem connector_path_endpoints_witness :
    pathStart? (renderLabel 0 0 400 500 20 18 5 rectAnnC5 ["a"] 0 true
        0 1).path =
      some (getBadgeCenter 0 0 rectAnnC5
        (renderLabel 0 0 400 500 20 18 5 rectAnnC5 ["a"] 0 true
          0 1).labelBadgeX
        (renderLabel 0 0 400 500 20 18 5 rectAnnC5 ["a"] 0 true
          0 1).labelBadgeY 5) ∧
    pathEnd? (renderLabel 0 0 400 500 20 18 5 rectAnnC5 ["a"] 0 true
        0 1).path =
      some ⟨(renderLabel 0 0 400 500 20 18 5 rectAnnC5 ["a"] 0 true
          0 1).connectorEndX,
        (renderLabel 0 0 400 500 20 18 5 rectAnnC5 ["a"] 0 true
          0 1).connectorEndY⟩ ∧
    onRectBoundary (rectAnnC5.position.x + 0) (rectAnnC5.position.y + 0)
      rectAnnC5.size.width rectAnnC5.size.height
      (getBadgeCenter 0 0 rectAnnC5 (-20) 5 5) ∧
    onEllipse (circAnnC5.position.x + circAnnC5.size.width / 2 + 0)
      (circAnnC5.position.y + circAnnC5.size.height / 2 + 0)
      (circAnnC5.size.width / 2) (circAnnC5.size.height / 2)
      (getBadgeCenter 0 0 circAnnC5 6 8 5) := by
  refine ⟨(connector_path_endpoints 0 0 400 500 20 18 5 rectAnnC5 ["a"] 0
      true 0 1).1,
    (connector_path_endpoints 0 0 400 500 20 18 5 rectAnnC5 ["a"] 0 true
      0 1).2.1, ?_, ?_⟩
  · exact (connector_path_endpoints 0 0 400 500 20 18 5 rectAnnC5 ["a"] 0
      true 0 1).2.2.1 (-20) 5 rfl (by norm_num [rectAnnC5])
      (by norm_num [rectAnnC5]) (by norm_num [rectAnnC5])
  · exact (connector_path_endpoints 0 0 400 500 20 18 5 circAnnC5 ["a"] 0
      true 0 1).2.2.2 6 8 rfl (by norm_num [circAnnC5])
      (by norm_num [circAnnC5]) (by norm_num)
      (by norm_num [circAnnC5])

/-- **C6.** When `n > 1` connectors share a side, each connector's elbow
x-coordinate is `(elbowCenter − 40) + index · (80 / (n − 1))` where
`elbowCenter` is the midpoint between the shape's boundary start x and
the label badge x; with a single connector the elbow sits at that
midpoint itself; the render pipeline's elbow is exactly this `midwayX`
of the connector's own boundary start and badge anchor. -/
theorem elbow_stagger (badgeStartX labelBadgeX : ℚ) (i n : ℕ) :
    (1 < n → midwayX badgeStartX labelBadgeX i n =
      ((badgeStartX + labelBadgeX) / 2 - 40) +
        (i : ℚ) * (80 / ((n : ℚ) - 1))) ∧
    (n = 1 → midwayX badgeStartX labelBadgeX i n =
      (badgeStartX + labelBadgeX) / 2) ∧
    (∀ imageX imageY imageWidth svgWidth badgeRadius fs len y isLeft
        (ann : Annotation ) (lines : List String),
      (renderLabel imageX imageY imageWidth svgWidth badgeRadius fs len
          ann lines y isLeft i n).midway =
        midwayX (renderLabel imageX imageY imageWidth svgWidth badgeRadius
            fs len ann lines y isLeft i n).badgeStart.x
          (renderLabel imageX imageY imageWidth svgWidth badgeRadius fs len
            ann lines y isLeft i n).labelBadgeX i n) := by
  refine ⟨?_, ?_, ?_⟩
  · intro hn
    simp only [midwayX, if_pos hn]
    norm_num
  · intro hn
    subst hn
    simp [midwayX]
  · intro imageX imageY imageWidth svgWidth badgeRadius fs len y isLeft
      ann lines
    rfl

/-- Witness for C6: three connectors on a side put index 1's elbow at the
window midpoint `20`; a single connector sits at the plain midpoint. -/
theorem elbow_stagger_witness :
    midwayX 10 30 1 3 = 20 ∧ midwayX 10 30 0 1 = 20 := by
  have h1 := (elbow_stagger 10 30 1 3).1 (by norm_num)
  have h2 := (elbow_stagger 10 30 0 1).2.1 rfl
  constructor
  · rw [h1]
    norm_num
  · rw [h2]
    norm_num

/-- A rectangle whose bounding-box centre sits at x-coordinate `cx`
(width 100), for the C7 scenario instances. -/
def centeredAnn (cx : ℚ) : Annotation :=
  { id := "ctr", type := .rectangle, number := 1, position := ⟨cx - 50, 0⟩,
    size := ⟨100, 50⟩, color := "c", text := "", alignment := .left }

/-- **C7.** The label side is assigned by comparing the annotation's
anchor x-coordinate to the image's horizontal midline: for rectangles
and circles the anchor is the bounding-box centre, so the side is `left`
iff `position.x + width / 2 < imageWidth / 2` (in image coordinates); for
freehand paths the anchor is the first stored point (kept in SVG
coordinates, hence compared against `imageWidth / 2 + imageX`); in
particular an annotation centred at x = 100 on an 800-wide image is
assigned `left` and one centred at x = 700 is assigned `right`. -/
theorem side_assignment (imageX imageY imageWidth : ℚ)
    (ann : Annotation ) :
    ((ann.type = AnnotationType.rectangle ∨
        ann.type = AnnotationType.circle) →
      (sideIsLeft imageX imageY imageWidth ann = true ↔
        ann.position.x + ann.size.width / 2 < imageWidth / 2)) ∧
    (∀ p ps, ann.type = AnnotationType.pencil →
      ann.points = some (p :: ps) →
      (sideIsLeft imageX imageY imageWidth ann = true ↔
        p.x < imageWidth / 2 + imageX)) ∧
    sideIsLeft imageX imageY 800 (centeredAnn 100) = true ∧
    sideIsLeft imageX imageY 800 (centeredAnn 700) = false := by
  refine ⟨?_, ?_, ?_, ?_⟩
  · intro htype
    rcases ann with ⟨aid, atype, anum, apos, asz, acol, atext, aal, alp,
      apts⟩
    simp only [] at htype
    unfold sideIsLeft getAnnotationCenter
    rcases htype with ht | ht <;> subst ht <;>
      simp only [decide_eq_true_eq] <;> constructor <;> intro hlt <;>
      linarith
  · intro p ps htype hpts
    rcases ann with ⟨aid, atype, anum, apos, asz, acol, atext, aal, alp,
      apts⟩
    simp only [] at htype hpts
    subst htype
    subst hpts
    unfold sideIsLeft getAnnotationCenter
    simp only [decide_eq_true_eq]
  · unfold sideIsLeft getAnnotationCenter centeredAnn
    simp only [decide_eq_true_eq]
    norm_num
  · unfold sideIsLeft getAnnotationCenter centeredAnn
    simp only [decide_eq_true_eq]
    norm_num

/-- A two-point freehand path whose first point is at x = 100 (SVG
coordinates). -/
def pencilAnnC7 : Annotation :=
  { id := "p7", type := .pencil, number := 3, position := ⟨0, 0⟩,
    size := ⟨0, 0⟩, color := "c", text := "", alignment := .left,
    points := some [⟨100, 50⟩, ⟨200, 60⟩] }

/-- Witness for C7: the midline rule instantiated for a rectangle and for
a freehand path, plus the two concrete scenario facts. -/
theorem side_assignment_witness :
    (sideIsLeft 7 3 800 (centeredAnn 100) = true ↔
      (centeredAnn 100).position.x + (centeredAnn 100).size.width / 2 <
        800 / 2) ∧
    (sideIsLeft 7 3 800 pencilAnnC7 = true ↔
      (100 : ℚ) < 800 / 2 + 7) ∧
    sideIsLeft 7 3 800 (centeredAnn 100) = true ∧
    sideIsLeft 7 3 800 (centeredAnn 700) = false := by
  refine ⟨(side_assignment 7 3 800 (centeredAnn 100)).1 (Or.inl rfl),
    ?_,
    (side_assignment 7 3 800 (centeredAnn 100)).2.2.1,
    (side_assignment 7 3 800 (centeredAnn 100)).2.2.2⟩
  exact (side_assignment 7 3 800 pencilAnnC7).2.1 ⟨100, 50⟩ [⟨200, 60⟩]
    rfl rfl

/-- `ToolType` from `Toolbar.tsx`:
`'pointer' | 'rectangle' | 'circle' | 'solid-circle' | 'pencil'`. -/
inductive ToolType where
  | pointer
  | rectangle
  | circle
  | solidCircle
  | pencil
deriving DecidableEq

/-- `isShapePartiallyInImage`: some part of the `(x, y, width, height)`
box lies inside the image bounds. -/
def isShapePartiallyInImage (x y width height imageWidth imageHeight : ℚ) :
    Bool :=
  decide (x + width > 0) && decide (y + height > 0) &&
    decide (x < imageWidth) && decide (y < imageHeight)

/-- The annotation-creating decision of `handleMouseUp`: `none` models a
silently discarded gesture (no annotation, no error).  The early
pointer-tool drag/resize returns of the source never create annotations
and are subsumed by the `drawing`/`start` guards; for the pencil tool a
path of at most one point falls through to the shape branches and
matches none of them.  `x`, `y`, `width`, `height` are the gesture box
in image coordinates, as computed at pointer-up. -/
def handleMouseUp (tool : ToolType) (drawing : Bool)
    (start endPt : Option Pt) (pencilPath : List Pt) (color : String)
    (imageWidth imageHeight imageX imageY : ℚ) : Option AnnotationInput :=
  match drawing, start with
  | false, _ => none
  | true, none => none
  | true, some s =>
    if tool = .pencil ∧ pencilPath.length > 1 then
      some { type := .pencil, points := some pencilPath, color := color,
             position := ⟨0, 0⟩, size := ⟨0, 0⟩, text := "",
             alignment := .left }
    else
      match endPt with
      | none => none
      | some e =>
        let x := min s.x e.x - imageX
        let y := min s.y e.y - imageY
        let width := |e.x - s.x|
        let height := |e.y - s.y|
        if ¬(isShapePartiallyInImage x y width height imageWidth
            imageHeight = true) then none
        else if tool = .rectangle ∧ width > 5 ∧ height > 5 then
          some { type := .rectangle, position := ⟨x, y⟩,
                 size := ⟨width, height⟩, color := color, text := "",
                 alignment := .left }
        else if tool = .circle ∧ width > 5 ∧ height > 5 then
          some { type := .circle, position := ⟨x, y⟩,
                 size := ⟨width, height⟩, color := color, text := "",
                 alignment := .left }
        else if tool = .solidCircle then
          some { type := .solidCircle,
                 position := ⟨e.x - imageX - 14 / 2, e.y - imageY - 14 / 2⟩,
                 size := ⟨14, 14⟩, color := color, text := "",
                 alignment := .left }
        else none

/-- **C8 (amended).** A completed rectangle or circle draw gesture creates
a new annotation iff it clears the minimum-size threshold (width > 5 and
height > 5) *and* its box is at least partially inside the image; a
freehand gesture creates one iff more than one point was captured;
otherwise the gesture is discarded silently (the decision returns `none`
and no error exists in the model). -/
theorem draw_commit_iff (tool : ToolType) (s e : Pt)
    (pencilPath : List Pt) (color : String)
    (imageWidth imageHeight imageX imageY : ℚ) :
    ((tool = ToolType.rectangle ∨ tool = ToolType.circle) →
      ((handleMouseUp tool true (some s) (some e) pencilPath color
          imageWidth imageHeight imageX imageY).isSome ↔
        ((5 : ℚ) < |e.x - s.x| ∧ (5 : ℚ) < |e.y - s.y| ∧
          isShapePartiallyInImage (min s.x e.x - imageX)
            (min s.y e.y - imageY) |e.x - s.x| |e.y - s.y|
            imageWidth imageHeight = true))) ∧
    (tool = ToolType.pencil →
      ((handleMouseUp tool true (some s) (some e) pencilPath color
          imageWidth imageHeight imageX imageY).isSome ↔
        1 < pencilPath.length)) := by
  constructor
  · intro ht
    rcases ht with ht | ht <;> subst ht <;>
      · simp only [handleMouseUp]
        split_ifs with h1 h2 h3 h4 h5 <;> simp_all
  · intro ht
    subst ht
    simp only [handleMouseUp]
    split_ifs with h1 h2 h3 h4 <;> simp_all

/-- Witness for C8: a 50×40 rectangle gesture inside the image commits,
and a two-point pencil gesture commits. -/
theorem draw_commit_iff_witness :
    (handleMouseUp ToolType.rectangle true (some ⟨0, 0⟩) (some ⟨50, 40⟩) []
      "red" 800 600 0 0).isSome = true ∧
    (handleMouseUp ToolType.pencil true (some ⟨0, 0⟩) (some ⟨50, 40⟩)
      [⟨0, 0⟩, ⟨10, 10⟩] "red" 800 600 0 0).isSome = true := by
  constructor
  · exact ((draw_commit_iff ToolType.rectangle ⟨0, 0⟩ ⟨50, 40⟩ [] "red"
      800 600 0 0).1 (Or.inl rfl)).mpr
      ⟨by norm_num, by norm_num, by norm_num [isShapePartiallyInImage]⟩
  · exact ((draw_commit_iff ToolType.pencil ⟨0, 0⟩ ⟨50, 40⟩
      [⟨0, 0⟩, ⟨10, 10⟩] "red" 800 600 0 0).2 rfl).mpr (by norm_num)

/-- **C8 counterexample.** A 50×50 rectangle gesture drawn entirely left
of the image clears the minimum-size threshold yet creates no
annotation: commitment is *not* equivalent to the size threshold alone,
because of the additional bounds check. -/
theorem c8_counterexample :
    handleMouseUp ToolType.rectangle true (some ⟨-100, -100⟩)
      (some ⟨-50, -50⟩) [] "red" 800 600 0 0 = none ∧
    (5 : ℚ) < |(-50 : ℚ) - (-100)| ∧ (5 : ℚ) < |(-50 : ℚ) - (-100)| := by
  refine ⟨?_, by norm_num, by norm_num⟩
  norm_num [handleMouseUp, isShapePartiallyInImage]

/-- **C10.** A completed rectangle or circle draw gesture whose box lies
entirely outside the image bounds (`x + width ≤ 0`, or `y + height ≤ 0`,
or `x ≥ imageWidth`, or `y ≥ imageHeight`, in image coordinates) creates
no annotation regardless of its width and height — the silent
out-of-bounds discard at pointer-up. -/
theorem out_of_bounds_discard (tool : ToolType) (s e : Pt)
    (pencilPath : List Pt) (color : String)
    (imageWidth imageHeight imageX imageY : ℚ)
    (ht : tool = ToolType.rectangle ∨ tool = ToolType.circle)
    (hout : min s.x e.x - imageX + |e.x - s.x| ≤ 0 ∨
      min s.y e.y - imageY + |e.y - s.y| ≤ 0 ∨
      imageWidth ≤ min s.x e.x - imageX ∨
      imageHeight ≤ min s.y e.y - imageY) :
    handleMouseUp tool true (some s) (some e) pencilPath color
      imageWidth imageHeight imageX imageY = none := by
  have hb : isShapePartiallyInImage (min s.x e.x - imageX)
      (min s.y e.y - imageY) |e.x - s.x| |e.y - s.y| imageWidth
      imageHeight = false := by
    rw [← Bool.not_eq_true]
    simp only [isShapePartiallyInImage, Bool.and_eq_true,
      decide_eq_true_eq, not_and_or, not_lt, gt_iff_lt]
    rcases hout with h | h | h | h
    · exact Or.inl (Or.inl (Or.inl (by linarith)))
    · exact Or.inl (Or.inl (Or.inr (by linarith)))
    · exact Or.inl (Or.inr (by linarith))
    · exact Or.inr (by linarith)
  rcases ht with ht | ht <;> subst ht <;> simp [handleMouseUp, hb]

/-- Witness for C10: a 50×30 gesture entirely right of an 800-wide image
is discarded. -/
theorem out_of_bounds_discard_witness :
    handleMouseUp ToolType.rectangle true (some ⟨850, 10⟩) (some ⟨900, 40⟩)
      [] "red" 800 600 0 0 = none :=
  out_of_bounds_discard ToolType.rectangle ⟨850, 10⟩ ⟨900, 40⟩ [] "red"
    800 600 0 0 (Or.inl rfl)
    (Or.inr (Or.inr (Or.inl (by norm_num))))

/-- The word-wrap used by the margin sizing (`getLabelWrappedLines`): the
same at-most-6-words-per-line grouping as the label renderer. -/
def getLabelWrappedLines (text : String) : List String :=
  (chunksOf6 (wordsOf text)).map fun ws => " ".intercalate ws

/-- The label box width estimate used by the margin pass: the longest
wrapped line (of the text, or the placeholder for empty text) times
`approxCharWidth = labelFontSize * 0.6`, plus 24 of padding, floored at
`minW` (180 on the left, 100 on the right). -/
def labelBoxWidthFor (minW fs : ℚ) (ann : Annotation ) : ℚ :=
  let lines := getLabelWrappedLines
    (if ann.text = "" then "Add note..." else ann.text)
  max minW
    (((lines.foldl (fun m line => max m line.length) 0 : ℕ) : ℚ) *
      (fs * 0.6) + 24)

/-- The margin pass's left bucket: annotations whose box centre
`position.x + width / 2` is left of `imageWidth / 2` (image
coordinates; this variant uses `position` even for pencil paths). -/
def leftLabels (anns : List Annotation ) (imageWidth : ℚ) :
    List Annotation :=
  anns.filter fun ann => ann.position.x + ann.size.width / 2 < imageWidth / 2

/-- The margin pass's right bucket: the complementary filter. -/
def rightLabels (anns : List Annotation ) (imageWidth : ℚ) :
    List Annotation :=
  anns.filter fun ann =>
    ¬(ann.position.x + ann.size.width / 2 < imageWidth / 2)

/-- `Math.max(...list.map(f))` over a nonempty list, 0 for the empty one
(the source guards with `length > 0 ? ... : 0`). -/
def maxBoxWidth (minW fs : ℚ) (anns : List Annotation ) : ℚ :=
  match anns with
  | [] => 0
  | a :: rest =>
    (rest.map (labelBoxWidthFor minW fs)).foldl max
      (labelBoxWidthFor minW fs a)

/-- `leftMargin = maxLeftLabelBoxWidth + labelEdgeBuffer`. -/
def leftMargin (anns : List Annotation ) (imageWidth fs : ℚ) : ℚ :=
  maxBoxWidth 180 fs (leftLabels anns imageWidth) + labelEdgeBuffer

/-- `rightMargin = maxRightLabelBoxWidth + labelEdgeBuffer`. -/
def rightMargin (anns : List Annotation ) (imageWidth fs : ℚ) : ℚ :=
  maxBoxWidth 100 fs (rightLabels anns imageWidth) + labelEdgeBuffer

/-- `svgWidth = leftMargin + imageWidth + rightMargin`; the image is
drawn at `imageX = leftMargin`. -/
def svgWidth (anns : List Annotation ) (imageWidth fs : ℚ) : ℚ :=
  leftMargin anns imageWidth fs + imageWidth + rightMargin anns imageWidth fs

/-- `maxLabelY`: the lowest annotation-centre y, `imageHeight` when there
are no annotations. -/
def maxLabelY (anns : List Annotation ) (imageHeight : ℚ) : ℚ :=
  match anns.map (fun ann => ann.position.y + ann.size.height / 2) with
  | [] => imageHeight
  | v :: vs => vs.foldl max v

/-- `minTopSpace = max(labelPadding + titleHeight, imageHeight/30 +
titleHeight)` with `labelPadding = 40`, `titleHeight = 80`. -/
def minTopSpace (imageHeight : ℚ) : ℚ :=
  max (40 + 80) (imageHeight / 30 + 80)

/-- `minBottomSpace = max(labelPadding, imageHeight/15,
maxLabelY - imageHeight/2 + labelPadding)`. -/
def minBottomSpace (anns : List Annotation ) (imageHeight : ℚ) : ℚ :=
  max (max 40 (imageHeight / 15))
    (maxLabelY anns imageHeight - imageHeight / 2 + 40)

/-- `topMargin`: centre the image in the 800-high budget when the space
allows, otherwise use the minimum top space. -/
def topMargin (anns : List Annotation ) (imageHeight : ℚ) : ℚ :=
  let minTop := minTopSpace imageHeight
  let minBottom := minBottomSpace anns imageHeight
  let totalLabelSpace := minTop + minBottom
  let availableSpace := 800 - imageHeight
  if availableSpace ≥ totalLabelSpace then
    minTop + (availableSpace - totalLabelSpace) / 2
  else minTop

/-- **C9 (amended).** With zero annotations the side margins collapse to
the fixed 40-pixel edge buffer — not to zero — so the canvas is 80 wider
than the image and the image origin sits at `x = 40`; the top margin is
at least 120 (title space plus padding), so the image origin's y is not
0 either. -/
theorem zero_annotations_margins (imageWidth imageHeight fs : ℚ) :
    leftMargin [] imageWidth fs = 40 ∧
    rightMargin [] imageWidth fs = 40 ∧
    svgWidth [] imageWidth fs = imageWidth + 80 ∧
    120 ≤ topMargin [] imageHeight := by
  have hl : leftMargin [] imageWidth fs = 40 := by
    simp [leftMargin, maxBoxWidth, leftLabels, labelEdgeBuffer]
  have hr : rightMargin [] imageWidth fs = 40 := by
    simp [rightMargin, maxBoxWidth, rightLabels, labelEdgeBuffer]
  refine ⟨hl, hr, ?_, ?_⟩
  · rw [svgWidth, hl, hr]
    ring
  · have hmin : (120 : ℚ) ≤ minTopSpace imageHeight := by
      unfold minTopSpace
      norm_num [le_max_iff]
    unfold topMargin
    simp only []
    split_ifs with hsp
    · have : 0 ≤ (800 - imageHeight -
          (minTopSpace imageHeight + minBottomSpace [] imageHeight)) / 2 := by
        linarith
      linarith
    · exact hmin

/-- **C9 counterexample.** For an 800×600 image with zero annotations the
computed margins are 40/40 and the top margin is 120: the image is *not*
rendered at native size at the canvas origin (canvas width 880 ≠ 800,
image origin (40, 120) ≠ (0, 0)). -/
theorem c9_counterexample :
    leftMargin [] 800 18 = 40 ∧
    rightMargin [] 800 18 = 40 ∧
    svgWidth [] 800 18 = 880 ∧
    topMargin [] 600 = 120 := by
  have h := zero_annotations_margins 800 600 18
  refine ⟨h.1, h.2.1, by rw [h.2.2.1]; norm_num, ?_⟩
  unfold topMargin minTopSpace minBottomSpace maxLabelY
  norm_num [max_def]
